import Mathlib

/-!
Verification development for the memory subsystem of the Agent-LuoTianyi
repository.  Python sources are shallowly embedded as executable Lean
definitions: strings are Lean `String`s manipulated through their character
lists, dictionaries are association lists with overwrite-on-insert, Python
exceptions are `Except` errors, and background threads are modelled as
explicit pending-work fields on the component state.  The external LLM and
embedding collaborators are abstracted as function parameters, following the
design's treatment of them as opaque capabilities.
-/

namespace LuoTianyi

/-! ## Python string primitives

Helpers mirroring the Python `str` operations used by the sources.  All are
written over `List Char` (Python strings index by code point, as does
`String.data`). -/

/-- Character class of Python `str.strip()` with no argument (ASCII whitespace;
the sources only ever strip ASCII here). -/
def pyIsSpace (c : Char) : Bool :=
  c = ' ' || c = '\t' || c = '\n' || c = '\r' || c = '\x0b' || c = '\x0c'

/-- Python `s.strip(chars)`: remove leading and trailing characters satisfying `p`. -/
def pyStripChars (p : Char → Bool) (s : List Char) : List Char :=
  (s.dropWhile p).rdropWhile p

/-- Python `s.strip()` (no argument). -/
def pyStrip (s : List Char) : List Char :=
  pyStripChars pyIsSpace s

/-- Python `s.rstrip(chars)`: remove trailing characters satisfying `p`. -/
def pyRstrip (p : Char → Bool) (s : List Char) : List Char :=
  s.rdropWhile p

/-- Python `s.split(sep, 1)` when `sep` is a single character: `none` when the
separator does not occur, otherwise the parts before and after its first
occurrence. -/
def pySplitOnce (sep : Char) : List Char → Option (List Char × List Char)
  | [] => none
  | c :: cs =>
    if c = sep then some ([], cs)
    else
      match pySplitOnce sep cs with
      | some (a, b) => some (c :: a, b)
      | none => none

/-- Python `s.split(sep)` for a single-character separator: note that the empty
string splits to `[""]`, exactly as in Python. -/
def pySplitAll (sep : Char) : List Char → List (List Char)
  | [] => [[]]
  | c :: cs =>
    let r := pySplitAll sep cs
    if c = sep then [] :: r
    else
      match r with
      | h :: t => (c :: h) :: t
      | [] => [[c]]

/-- Python `s.startswith(pre)`. -/
def pyStartsWith (s pre : List Char) : Bool :=
  pre.isPrefixOf s

/-- Python `needle in hay` (contiguous substring containment). -/
def pyContainsSub (needle : List Char) : List Char → Bool
  | [] => needle.isEmpty
  | c :: t => needle.isPrefixOf (c :: t) || pyContainsSub needle t

/-- Python `s.lower()`, restricted to the ASCII case mapping (the command verbs
the sources lowercase are ASCII identifiers). -/
def pyLower (s : String) : String :=
  String.mk (s.data.map Char.toLower)

/-- Python `s.split('\n')` returning `String` lines. -/
def pyLines (s : String) : List String :=
  (pySplitAll '\n' s.data).map String.mk

/-! ## Python dictionaries (string-keyed) as association lists -/

/-- Python `m[k] = v`: overwrite the existing binding or append a new one. -/
def dictInsert (m : List (String × String)) (k v : String) : List (String × String) :=
  match m with
  | [] => [(k, v)]
  | (k0, v0) :: rest => if k0 = k then (k, v) :: rest else (k0, v0) :: dictInsert rest k v

/-- Python `m.get(k, dflt)`. -/
def dictGet (m : List (String × String)) (k dflt : String) : String :=
  match m with
  | [] => dflt
  | (k0, v0) :: rest => if k0 = k then v0 else dictGet rest k dflt

/-- Association-list lookup returning `Option` (Python `m[k]` guarded by `k in m`). -/
def aliasLookup (m : List (String × String)) (k : String) : Option String :=
  match m with
  | [] => none
  | (k0, v0) :: rest => if k0 = k then some v0 else aliasLookup rest k

/-! ## LLM command-plan parsing

Embeds the line-parsing loops of `MemorySearcher._generate_search_queries`
(memory_search.py lines 77-98) and `MemoryWriter._extract_knowledge`
(memory_write.py lines 117-137); the two loops are textually identical.  The
LLM response is the input string; the surrounding `try/except/finally` is
modelled by the `LineStep.bad` outcome, which aborts the loop but returns the
commands accumulated so far (the `finally: return cmd`). -/

/-- One parsed plan line: `funcname(key='value', ...)`. -/
structure PlanCmd where
  funcname : String
  kwargs : List (String × String)
deriving DecidableEq, Repr

/-- Parse one `key=value` argument into the keyword dictionary; `none` models
the `ValueError` of `key, value = arg.split("=", 1)` when `=` is absent. -/
def parseArg (m : List (String × String)) (arg : List Char) :
    Option (List (String × String)) :=
  match pySplitOnce '=' arg with
  | none => none
  | some (k, v) =>
    some (dictInsert m (String.mk (pyStrip k))
      (String.mk (pyStripChars (· = '\"') (pyStripChars (· = '\'') (pyStrip v)))))

/-- Fold `parseArg` over the comma-separated argument pieces. -/
def parseArgs (m : List (String × String)) : List (List Char) →
    Option (List (String × String))
  | [] => some m
  | a :: rest =>
    match parseArg m a with
    | none => none
    | some m2 => parseArgs m2 rest

/-- Outcome of processing one plan line: terminate at `##`, skip an empty or
parenthesis-free line, abort on an argument that does not split at `=`, or
produce a command. -/
inductive LineStep where
  | stop : LineStep
  | skip : LineStep
  | bad : LineStep
  | cmd : PlanCmd → LineStep
deriving DecidableEq, Repr

/-- Classification of one response line, following the loop body shared by the
searcher and the writer. -/
def parseLine (line : String) : LineStep :=
  if pyStartsWith line.data ['#', '#'] then .stop
  else if line = "" then .skip
  else if !(line.data.contains '(') || !(line.data.contains ')') then .skip
  else
    match pySplitOnce '(' line.data with
    | none => .skip
    | some (fn, rest) =>
      let argsStr := pyRstrip (· = ')') rest
      match parseArgs [] (pySplitAll ',' argsStr) with
      | none => .bad
      | some kw => .cmd ⟨String.mk (pyStrip fn), kw⟩

/-- The parsing loop with its accumulated command list; `bad` returns the
accumulator because the exception is caught outside the loop and the
`finally` block returns `cmd`. -/
def extractGo : List String → List PlanCmd → List PlanCmd
  | [], acc => acc
  | line :: rest, acc =>
    match parseLine line with
    | .stop => acc
    | .skip => extractGo rest acc
    | .bad => acc
    | .cmd c => extractGo rest (acc ++ [c])

/-- Commands extracted from an LLM response (shared by
`MemorySearcher._generate_search_queries` and `MemoryWriter._extract_knowledge`). -/
def extractCommands (response : String) : List PlanCmd :=
  extractGo (pyLines response) []

/-- Specification-level predicate: a line on which the loop terminates (either
the `##` terminator or an argument-splitting failure). -/
def terminalLine (l : String) : Bool :=
  match parseLine l with
  | .stop => true
  | .bad => true
  | _ => false

/-- Specification-level view of one line's contribution. -/
def lineCommand (l : String) : Option PlanCmd :=
  match parseLine l with
  | .cmd c => some c
  | _ => none

/-- Specification-level description of the parse: the commands of the
well-formed lines in the longest prefix containing no terminating line. -/
def specParsedCommands (lines : List String) : List PlanCmd :=
  (lines.takeWhile (fun l => !terminalLine l)).filterMap lineCommand

/-! ## Python exceptions relevant to the embedded code -/

deriving instance DecidableEq for Except

/-- The Python exception classes the embedded operations can raise. -/
inductive PyError where
  | typeError : PyError
  | valueError : PyError
  | notImplementedError : PyError
  | unboundLocalError : PyError
deriving DecidableEq, Repr

/-! ## MemoryWriter (memory_write.py)

The vector store the writer mutates is abstracted as a state type `σ` with the
two operations the writer invokes; the user profile is reduced to the stored
display name.  A Python local variable that may be unassigned is an
`Option`: reading `none` raises `UnboundLocalError`. -/

/-- `MemoryUpdateCommand` dataclass (memory_write.py lines 24-33). -/
structure MemoryUpdateCommand where
  type : String
  content : String
  uuid : Option String := none
deriving DecidableEq, Repr

/-- The vector-store operations `MemoryWriter` calls, over an abstract store
state `σ`: `add_documents` returns the new state and the assigned ids,
`update_document` overwrites a document's content by id. -/
structure StoreOps (σ : Type) where
  add_documents : σ → String → σ × List String
  update_document : σ → String → String → σ

/-- In-memory state of a `MemoryWriter` (vector store, recent-write ring
buffer, user-profile display name).  Disk persistence of the ring buffer
(`save_recent_update`) rewrites the same data and is not modelled separately. -/
structure WriterState (σ : Type) where
  store : σ
  recent_update : List MemoryUpdateCommand
  username : String
deriving DecidableEq, Repr

/-- Push onto the `deque(maxlen=10)` ring buffer (memory_write.py line 41):
append and evict from the front beyond ten entries. -/
def dequePush (dq : List MemoryUpdateCommand) (c : MemoryUpdateCommand) :
    List MemoryUpdateCommand :=
  let dq2 := dq ++ [c]
  if dq2.length > 10 then dq2.drop (dq2.length - 10) else dq2

/-- `MemoryWriter.v_add` (memory_write.py lines 139-146). -/
def v_add {σ : Type} (ops : StoreOps σ) (s : WriterState σ) (document : String) :
    WriterState σ :=
  let r := ops.add_documents s.store document
  { s with
    store := r.1
    recent_update := dequePush s.recent_update ⟨"v_add", document, r.2.head?⟩ }

/-- `MemoryWriter.v_update` (memory_write.py lines 148-158). -/
def v_update {σ : Type} (ops : StoreOps σ) (s : WriterState σ) (uuid : Option String)
    (new_document : String) : WriterState σ :=
  match uuid with
  | none => s
  | some u =>
    { s with
      store := ops.update_document s.store u new_document
      recent_update := dequePush s.recent_update ⟨"v_update", new_document, some u⟩ }

/-- The short-UUID resolution loop of the `update` branch (memory_write.py
lines 88-93): first element of `used_uuid` (skipping `None`) whose id starts
with the short id; `none` when the `for` loop falls through to its `else`. -/
def resolveShortUuid (used : List (Option String)) (short : String) : Option String :=
  match used with
  | [] => none
  | none :: rest => resolveShortUuid rest short
  | some u :: rest =>
    if pyStartsWith u.data short.data then some u else resolveShortUuid rest short

/-- The command-dispatch loop of `MemoryWriter.process_interaction`
(memory_write.py lines 79-100).  `uuidLocal` is the Python local
`uuid_to_update`, which is shared across loop iterations and starts the call
unassigned (`none`); the `update` branch reads it even when the resolution
loop found no match, raising `UnboundLocalError` when it was never assigned
and silently reusing a stale value when an earlier command assigned it. -/
def processCmds {σ : Type} (ops : StoreOps σ) :
    List PlanCmd → WriterState σ → List (Option String) → Option String →
    Except PyError (WriterState σ)
  | [], s, _, _ => .ok s
  | c :: rest, s, used, uuidLocal =>
    let fn := pyLower c.funcname
    if pyContainsSub "add".data fn.data then
      let content := dictGet c.kwargs "document" ""
      processCmds ops rest (v_add ops s content) used uuidLocal
    else if pyContainsSub "username".data fn.data then
      let new_name := dictGet c.kwargs "new_name" ""
      processCmds ops rest { s with username := new_name } used uuidLocal
    else if pyContainsSub "update".data fn.data then
      let uuid_short := dictGet c.kwargs "uuid" ""
      let uuidLocal2 :=
        match resolveShortUuid used uuid_short with
        | some u => some u
        | none => uuidLocal
      let content0 := dictGet c.kwargs "new_document" ""
      let content := if content0 = "" then dictGet c.kwargs "document" "" else content0
      match uuidLocal2 with
      | none => .error .unboundLocalError
      | some u => processCmds ops rest (v_update ops s (some u) content) used uuidLocal2
    else
      processCmds ops rest s used uuidLocal

/-- `MemoryWriter.process_interaction` (memory_write.py lines 65-100).  The LLM
round-trip inside `_extract_knowledge` is abstracted by passing its textual
response; the parsing of that response is `extractCommands`.  The set
`uuid_can_be_used` (lines 73-76) is computed and then never read, exactly as
in the source. -/
def process_interaction {σ : Type} (ops : StoreOps σ) (s : WriterState σ)
    (llmResponse : String) (used_uuid : List (Option String)) :
    Except PyError (WriterState σ) :=
  let update_cmd := extractCommands llmResponse
  let _uuid_can_be_used :=
    used_uuid.filterMap id ++ s.recent_update.filterMap (fun u => u.uuid)
  processCmds ops update_cmd s used_uuid none

/-- A store instantiation for concrete evaluations: the state counts one for
each added document and one hundred for each update, making every mutation
observable. -/
def trivOps : StoreOps Nat :=
  { add_documents := fun n _ => (n + 1, ["doc_" ++ toString (n + 1)])
    update_document := fun n _ _ => n + 100 }

/-! ## MemoryManager construction (memory_manager.py lines 20-42)

`__init__` builds the graph retriever and vector store through their
factories, then the searcher, then calls `MemoryWriter(config["memory_writer"],
self.vector_store, prompt_manager)` — three positional arguments against the
four required parameters of `MemoryWriter.__init__` (memory_write.py line 36).
The component constructions that perform I/O are abstracted as outcome
parameters; the factory dispatch on the type strings follows
graph_retriever.py lines 581-597 and vector_store.py lines 706-726. -/

/-- Number of positional arguments `MemoryManager.__init__` passes to the
`MemoryWriter` constructor (memory_manager.py line 41). -/
def memoryWriterCallArgCount : Nat := 3

/-- Number of required (default-free) parameters of `MemoryWriter.__init__`
besides `self`: `config`, `vector_store`, `user_profile`, `prompt_manager`
(memory_write.py line 36). -/
def memoryWriterRequiredParams : Nat := 4

/-- Python call binding: a call with a number of positional arguments
different from the number of required parameters raises `TypeError`. -/
def pythonCallBind (given required : Nat) : Except PyError Unit :=
  if given = required then .ok () else .error .typeError

/-- `GraphRetrieverFactory.create_retriever` (graph_retriever.py lines 581-597);
the `InMemoryGraphRetriever` construction itself (which reads files) is the
`memoryOutcome` parameter. -/
def create_retriever (retrieverType : String) (memoryOutcome : Except PyError Unit) :
    Except PyError Unit :=
  if pyLower retrieverType = "neo4j" then .error .notImplementedError
  else if pyLower retrieverType = "memory" then memoryOutcome
  else .error .valueError

/-- `VectorStoreFactory.create_vector_store` (vector_store.py lines 706-726);
the two concrete constructions are outcome parameters. -/
def create_vector_store (storeType : String)
    (chromaOutcome customOutcome : Except PyError Unit) : Except PyError Unit :=
  if pyLower storeType = "chroma" then chromaOutcome
  else if pyLower storeType = "custom" then customOutcome
  else if pyLower storeType = "faiss" then .error .notImplementedError
  else if pyLower storeType = "pinecone" then .error .notImplementedError
  else .error .valueError

/-- `MemoryManager.__init__` (memory_manager.py lines 20-42): sequence the
retriever factory, the store factory, the searcher construction, and finally
the `MemoryWriter(...)` call, whose argument binding is checked before any of
the writer's body runs. -/
def memoryManagerInit (retrieverType storeType : String)
    (memRetrieverOutcome chromaOutcome customOutcome searcherOutcome :
      Except PyError Unit) : Except PyError Unit :=
  match create_retriever retrieverType memRetrieverOutcome with
  | .error e => .error e
  | .ok _ =>
    match create_vector_store storeType chromaOutcome customOutcome with
    | .error e => .error e
    | .ok _ =>
      match searcherOutcome with
      | .error e => .error e
      | .ok _ => pythonCallBind memoryWriterCallArgCount memoryWriterRequiredParams

/-! ## MemoryManager threading discipline (memory_manager.py lines 44-70)

Write workers are modelled by numeric ids.  `running` lists the workers that
have started and not yet finished; `handle` is `self.post_process_thread`
(the most recently spawned worker, if any).  `Thread.join` blocks until the
worker finishes, so its post-state removes the worker from `running`; a
worker may also finish on its own (`workerFinish`). -/

/-- Thread-visible state of a `MemoryManager`. -/
structure MMThreadState where
  running : List Nat
  handle : Option Nat
  next_id : Nat
deriving DecidableEq, Repr

/-- State after `MemoryManager.__init__` would have completed
(`self.post_process_thread = None`, no worker running). -/
def mmInit : MMThreadState := ⟨[], none, 0⟩

/-- `MemoryManager.post_process_interaction` (memory_manager.py lines 60-70):
overwrite the handle with a freshly spawned worker and return immediately —
the previous worker is not joined. -/
def post_process_interaction (s : MMThreadState) : MMThreadState :=
  { running := s.running ++ [s.next_id]
    handle := some s.next_id
    next_id := s.next_id + 1 }

/-- `Thread.join` on worker `t`: the caller resumes once `t` has finished. -/
def joinThread (s : MMThreadState) (t : Nat) : MMThreadState :=
  { s with running := s.running.filter (fun x => x != t) }

/-- The synchronization prefix of `MemoryManager.get_knowledge`
(memory_manager.py lines 54-56): join the handle's worker if it is alive. -/
def get_knowledge_sync (s : MMThreadState) : MMThreadState :=
  match s.handle with
  | some t => if t ∈ s.running then joinThread s t else s
  | none => s

/-- Environment step: a running worker completes on its own. -/
def workerFinish (s : MMThreadState) (t : Nat) : MMThreadState :=
  { s with running := s.running.filter (fun x => x != t) }

/-! ## ConversationManager (conversation_manager.py)

The durable log, its shard index, the recent-window cache, and the
context/summary pair.  Disk shard files appear as `disk`, a list of line
lists parallel to `index.files` (shard `i` is `history_i.jsonl`; JSON
round-tripping of a `ConversationItem` is the identity on intact files).
The background summarization worker is a pending-work flag whose effect is
applied when `get_context` joins it; `spawn_count` is a ghost counter of
started summarization cycles and influences nothing. -/

/-- `ConversationItem` dataclass (conversation_manager.py lines 12-17). -/
structure ConversationItem where
  timestamp : String
  source : String
  type : String
  content : String
deriving DecidableEq, Repr

/-- One entry of `index.json`'s `files` array (conversation_manager.py
lines 233-238). -/
structure FileInfo where
  filename : String
  count : Nat
  start_index : Nat
  end_index : Nat
deriving DecidableEq, Repr

/-- `index.json` (conversation_manager.py lines 218-221). -/
structure IndexData where
  total_count : Nat
  files : List FileInfo
deriving DecidableEq, Repr

/-- Configuration values read in `ConversationManager.__init__`
(conversation_manager.py lines 72-91). -/
structure CMConfig where
  max_file_lines : Nat
  recent_limit : Nat
  raw_conversation_context_limit : Nat
  not_zip_conversation_count : Nat
deriving DecidableEq, Repr

/-- In-memory and on-disk state of a `ConversationManager`. -/
structure CMState where
  index : IndexData
  disk : List (List ConversationItem)
  recent_history : List ConversationItem
  context : List ConversationItem
  summary : String
  pending_update : Bool
  spawn_count : Nat
deriving DecidableEq, Repr

/-- Fresh state: no index file, no shards, empty context file
(conversation_manager.py lines 208-222 and 267-271). -/
def cmInit : CMState :=
  { index := ⟨0, []⟩, disk := [], recent_history := [], context := []
    summary := "", pending_update := false, spawn_count := 0 }

/-- `ConversationManager._get_current_file_info` (conversation_manager.py
lines 229-255), together with the implicit creation of the shard file on disk
when `open(..., 'a')` first touches it: create `history_0` when there are no
files, rotate to a fresh shard when the active one has reached
`max_file_lines`, otherwise keep the active shard. -/
def get_current_file_step (M : Nat) (d : IndexData)
    (disk : List (List ConversationItem)) :
    IndexData × List (List ConversationItem) :=
  match d.files.getLast? with
  | none =>
    ({ d with files := [⟨"history_0.jsonl", 0, 0, 0⟩] }, disk ++ [[]])
  | some current =>
    if current.count ≥ M then
      ({ d with
          files := d.files ++
            [⟨"history_" ++ toString d.files.length ++ ".jsonl", 0,
              d.total_count, d.total_count⟩] },
        disk ++ [[]])
    else (d, disk)

/-- Apply the post-write index bump (`count += 1`, `end_index += 1`) to the
active (last) shard entry. -/
def bumpLast : List FileInfo → List FileInfo
  | [] => []
  | [f] => [⟨f.filename, f.count + 1, f.start_index, f.end_index + 1⟩]
  | f :: g :: rest => f :: bumpLast (g :: rest)

/-- Append the written line to the active (last) shard file. -/
def writeLast (it : ConversationItem) : List (List ConversationItem) →
    List (List ConversationItem)
  | [] => []
  | [c] => [c ++ [it]]
  | c :: d :: rest => c :: writeLast it (d :: rest)

/-- `ConversationManager.add_conversation` (conversation_manager.py
lines 95-133).  The wall-clock timestamp is a parameter of the constructed
item.  When the context buffer exceeds `raw_conversation_context_limit`, a
summarization worker is spawned (pending flag set, ghost counter bumped);
otherwise the context is persisted synchronously (no state change beyond the
buffers). -/
def add_conversation (cfg : CMConfig) (s : CMState) (item : ConversationItem) :
    CMState :=
  let fd := get_current_file_step cfg.max_file_lines s.index s.disk
  let disk2 := writeLast item fd.2
  let index2 : IndexData := ⟨fd.1.total_count + 1, bumpLast fd.1.files⟩
  let recent1 := s.recent_history ++ [item]
  let recent2 := if recent1.length > cfg.recent_limit then recent1.drop 1 else recent1
  let ctx1 := s.context ++ [item]
  if ctx1.length > cfg.raw_conversation_context_limit then
    { index := index2, disk := disk2, recent_history := recent2, context := ctx1
      summary := s.summary, pending_update := true, spawn_count := s.spawn_count + 1 }
  else
    { index := index2, disk := disk2, recent_history := recent2, context := ctx1
      summary := s.summary, pending_update := s.pending_update
      spawn_count := s.spawn_count }

/-- A sequence of appends. -/
def appendItems (cfg : CMConfig) (s : CMState) : List ConversationItem → CMState
  | [] => s
  | it :: rest => appendItems cfg (add_conversation cfg s it) rest

/-- Python slice `l[a:b]` for `0 ≤ a`, `0 ≤ b`. -/
def pySlice {α : Type} (l : List α) (a b : Nat) : List α :=
  (l.take b).drop a

/-- Python slice `l[-k:]`.  Note the `-0` quirk: for `k = 0` the slice is the
whole list, since `-0 == 0` in Python. -/
def pyTakeLast {α : Type} (l : List α) (k : Nat) : List α :=
  if k = 0 then l else l.drop (l.length - k)

/-- `ConversationManager._read_lines_from_file` (conversation_manager.py
lines 309-335) on an intact shard: skip `skip` lines, read at most `count`
lines, stop silently at end of file. -/
def read_lines_from_file (content : List ConversationItem) (skip count : Nat) :
    List ConversationItem :=
  (content.drop skip).take count

/-- The shard-scanning loop of `ConversationManager.get_history`
(conversation_manager.py lines 168-192) over the index entries paired with
their on-disk contents. -/
def readFromFiles (fs : List (FileInfo × List ConversationItem)) (a b : Nat) :
    List ConversationItem :=
  match fs with
  | [] => []
  | (fi, content) :: rest =>
    let here :=
      if a < fi.end_index ∧ fi.start_index < b then
        let read_start := max a fi.start_index
        let read_end := min b fi.end_index
        read_lines_from_file content (read_start - fi.start_index)
          (read_end - read_start)
      else []
    here ++ readFromFiles rest a b

/-- `ConversationManager.get_history` (conversation_manager.py lines 143-192):
clamp the range, answer from the recent window when the range lies wholly
inside it, otherwise scan the shard files.  (Negative arguments cannot arise
in the `Nat` model; the `start < 0` clamp is vacuous.) -/
def get_history (s : CMState) (start e0 : Nat) : List ConversationItem :=
  let total := s.index.total_count
  let e := min e0 total
  if start ≥ e then []
  else
    let cache_start_idx := total - s.recent_history.length
    if start ≥ cache_start_idx then
      pySlice s.recent_history (start - cache_start_idx) (e - cache_start_idx)
    else
      readFromFiles (s.index.files.zip s.disk) start e

/-- `ConversationManager._update_context` (conversation_manager.py
lines 291-307), run by the background worker: fold the current context into a
new summary via the external LLM, truncate the context to the last
`not_zip_conversation_count` items, clear the pending flag (the worker is
finished once this ran). -/
def update_context (llm : String → List ConversationItem → String)
    (cfg : CMConfig) (s : CMState) : CMState :=
  { s with
    summary := String.mk (pyStrip (llm s.summary s.context).data)
    context := pyTakeLast s.context cfg.not_zip_conversation_count
    pending_update := false }

/-- Rendering of one context line in `get_context`
(conversation_manager.py line 202). -/
def renderItem (it : ConversationItem) : String :=
  "[" ++ it.timestamp ++ "]" ++ it.source ++ ": " ++ it.content

/-- `"\n".join(...)` over the rendered context. -/
def renderContext (l : List ConversationItem) : String :=
  String.intercalate "\n" (l.map renderItem)

/-- `ConversationManager.get_context` (conversation_manager.py lines 194-202):
join the summarization worker when one is in flight (its effect is applied at
the join), then render summary and recent raw items.  Returns the post-join
state together with the returned string. -/
def get_context (llm : String → List ConversationItem → String) (cfg : CMConfig)
    (s : CMState) : CMState × String :=
  let s2 := if s.pending_update then update_context llm cfg s else s
  (s2, "更早对话总结：" ++ s2.summary ++ "\n 最近对话：\n" ++ renderContext s2.context)

/-! Closed forms used to state the shard-index invariant. -/

/-- Number of shard entries after `N` appends with limit `M`:
`⌈N / M⌉` (and `0` for `N = 0`). -/
def numFiles (M N : Nat) : Nat := (N + M - 1) / M

/-- The `i`-th shard entry after `N` appends with limit `M`. -/
def mkFile (M N i : Nat) : FileInfo :=
  ⟨"history_" ++ toString i ++ ".jsonl",
    min ((i + 1) * M) N - i * M, i * M, min ((i + 1) * M) N⟩

/-- The full shard index after `N` appends with limit `M`. -/
def mkFiles (M N : Nat) : List FileInfo :=
  (List.range (numFiles M N)).map (mkFile M N)

/-- The on-disk shard contents after appending `xs` with limit `M`. -/
def mkDisk (M : Nat) (xs : List ConversationItem) : List (List ConversationItem) :=
  (List.range (numFiles M xs.length)).map
    (fun i => pySlice xs (i * M) (min ((i + 1) * M) xs.length))

/-! ## Alias resolution (graph_retriever.py lines 343-385)

`InMemoryGraphRetriever.get_aliased_name` over the graph's entity-id
dictionary and the alias map.  The returned triple carries the resolved id
(`none` models Python's `None` return), the possibly-extended graph state,
and a ghost flag recording whether the fuzzy fallback ran (it influences
nothing; `save_alias_map` rewrites the alias map to disk and is not modelled
separately). -/

/-- The part of `KnowledgeGraph` state that alias resolution touches:
`entities.keys()` in dictionary order, and `alias_map`. -/
structure GraphAliasState where
  entities : List String
  alias_map : List (String × String)
deriving DecidableEq, Repr

/-- Python dict assignment `alias_map[k] = v`. -/
def aliasInsert (m : List (String × String)) (k v : String) :
    List (String × String) :=
  dictInsert m k v

/-- The length of the longest common prefix of two character lists (the inner
diagonal extension of the substring DP). -/
def commonRun : List Char → List Char → Nat
  | a :: as, b :: bs => if a = b then commonRun as bs + 1 else 0
  | _, _ => 0

/-- `get_maximum_common_substring_length` (graph_retriever.py lines 359-370).
The source fills `dp[i][j]` with the length of the longest common suffix of
`s1[:i]` and `s2[:j]` and takes the table maximum; equivalently (reindexing
by the start of the common substring instead of its end) this is the maximum
over all suffix pairs of their longest common prefix. -/
def get_maximum_common_substring_length (s1 s2 : List Char) : Nat :=
  (s1.tails.map
    (fun t1 => (s2.tails.map (fun t2 => commonRun t1 t2)).foldl Nat.max 0)).foldl
    Nat.max 0

/-- The fuzzy-fallback scan (graph_retriever.py lines 371-379): walk every
known entity id keeping the best strictly-improving candidate whose common
substring length reaches `max(len(entity_id) / 2, 2)` (the float comparison
`c >= len / 2` is exactly `2 * c ≥ len` on integers). -/
def fuzzyScan (entity_id : String) : List String → Nat → Option String →
    Option String
  | [], _, best => best
  | standard_name :: rest, maxLen, best =>
    let c := get_maximum_common_substring_length entity_id.data standard_name.data
    if c > maxLen ∧ 2 * c ≥ entity_id.length ∧ 2 ≤ c then
      fuzzyScan entity_id rest c (some standard_name)
    else
      fuzzyScan entity_id rest maxLen best

/-- `InMemoryGraphRetriever.get_aliased_name` (graph_retriever.py
lines 343-385): empty input returned as is; exact id; lowercased id; alias
map exact; alias map lowercased; fuzzy fallback, memoized into the alias map
on success.  The third component is the ghost "fuzzy ran" flag. -/
def get_aliased_name (g : GraphAliasState) (entity_id : String) :
    Option String × GraphAliasState × Bool :=
  if entity_id = "" then (some entity_id, g, false)
  else if g.entities.contains entity_id then (some entity_id, g, false)
  else if g.entities.contains (pyLower entity_id) then
    (some (pyLower entity_id), g, false)
  else
    match aliasLookup g.alias_map entity_id with
    | some v => (some v, g, false)
    | none =>
      match aliasLookup g.alias_map (pyLower entity_id) with
      | some v => (some v, g, false)
      | none =>
        match fuzzyScan entity_id g.entities 0 none with
        | some best_match =>
          (some best_match,
            { g with alias_map := aliasInsert g.alias_map entity_id best_match },
            true)
        | none => (none, g, true)

/-! ## CustomVectorStore (vector_store.py lines 332-701)

The in-memory columnar state of the reference vector store.  Embedding
vectors live in an abstract type `α` produced by the external embedder.
`delete_documents` and `update_document` (lines 525-529) have `pass` bodies:
they perform no state change and return Python `None` (modelled as `none`
where the interface declares `bool`). -/

/-- `ThreeTupleDocument` (vector_store.py lines 299-330); its content is the
concatenation `subject + relation + object`. -/
structure TTDocument where
  subject : String
  relation : String
  object : String
deriving DecidableEq, Repr

/-- Content string of a `ThreeTupleDocument` (vector_store.py line 305). -/
def ttContent (d : TTDocument) : String :=
  d.subject ++ d.relation ++ d.object

/-- In-memory state of a `CustomVectorStore` (vector_store.py lines 348-355):
document table, per-tag document-id lists (`ThemeTag.content_with_tags`,
with the tag's insertion-order id), embedding columns, and the ever-increasing
document counter. -/
structure CVState (α : Type) where
  documents : List (String × TTDocument)
  tags : List (String × Nat × List String)
  content_embeddings : List (String × α)
  tag_embeddings : List (String × α)
  doc_count_ever : Nat
deriving DecidableEq, Repr

/-- Empty store (no persisted snapshot found). -/
def cvInit {α : Type} : CVState α :=
  ⟨[], [], [], [], 0⟩

/-- Membership test of a tag key (`subject not in self.tags`). -/
def tagsContains {α : Type} (s : CVState α) (t : String) : Bool :=
  s.tags.any (fun p => p.1 = t)

/-- `ThemeTag.add_content` (vector_store.py lines 284-286) applied to the tag
`t` inside the tag table: append the doc id if not already present. -/
def tagsAddContent (tags : List (String × Nat × List String)) (t doc_id : String) :
    List (String × Nat × List String) :=
  tags.map (fun p =>
    if p.1 = t then
      (p.1, p.2.1, if doc_id ∈ p.2.2 then p.2.2 else p.2.2 ++ [doc_id])
    else p)

/-- The per-document body of `CustomVectorStore.add_documents`
(vector_store.py lines 481-516): assign `doc_{doc_count_ever+1}`, store the
document and its content embedding, create missing subject/object tags with
fresh tag embeddings, and register the document under both tags. -/
def cvAddOne {α : Type} (embed : String → α) (s : CVState α) (doc : TTDocument) :
    CVState α × String :=
  let content := ttContent doc
  let doc_id := "doc_" ++ toString (s.doc_count_ever + 1)
  let s1 : CVState α :=
    { s with
      documents := s.documents ++ [(doc_id, doc)]
      content_embeddings := s.content_embeddings ++ [(doc_id, embed content)]
      doc_count_ever := s.doc_count_ever + 1 }
  let s2 : CVState α :=
    if tagsContains s1 doc.subject then s1
    else
      { s1 with
        tags := s1.tags ++ [(doc.subject, s1.tags.length + 1, [])]
        tag_embeddings := s1.tag_embeddings ++ [(doc.subject, embed doc.subject)] }
  let s3 : CVState α :=
    if tagsContains s2 doc.object then s2
    else
      { s2 with
        tags := s2.tags ++ [(doc.object, s2.tags.length + 1, [])]
        tag_embeddings := s2.tag_embeddings ++ [(doc.object, embed doc.object)] }
  let s4 : CVState α :=
    { s3 with
      tags := tagsAddContent (tagsAddContent s3.tags doc.subject doc_id) doc.object doc_id }
  (s4, doc_id)

/-- `CustomVectorStore.add_documents` (vector_store.py lines 469-523). -/
def cv_add_documents {α : Type} (embed : String → α) (s : CVState α) :
    List TTDocument → CVState α × List String
  | [] => (s, [])
  | d :: rest =>
    let r := cvAddOne embed s d
    let r2 := cv_add_documents embed r.1 rest
    (r2.1, r.2 :: r2.2)

/-- `CustomVectorStore.delete_documents` (vector_store.py lines 525-526): the
body is `pass` — no state change, returns `None` where the interface declares
`bool`. -/
def cv_delete_documents {α : Type} (s : CVState α) (_doc_ids : List String) :
    CVState α × Option Bool :=
  (s, none)

/-- `CustomVectorStore.update_document` (vector_store.py lines 528-529): the
body is `pass` — no state change, returns `None` where the interface declares
`bool`. -/
def cv_update_document {α : Type} (s : CVState α) (_doc_id : String)
    (_document : TTDocument) : CVState α × Option Bool :=
  (s, none)

/-- Document-table lookup (`self.documents.get(doc_id)`). -/
def cvGetDocument {α : Type} (s : CVState α) (doc_id : String) : Option TTDocument :=
  match s.documents.find? (fun p => p.1 = doc_id) with
  | some p => some p.2
  | none => none

/-! ## Proof-support definitions -/

/-- Invariant tying a `ConversationManager` state to the sequence `xs` of items
appended so far: the index and shard files have their closed forms and the
recent window holds the last `recent_limit` items. -/
def CMHistInv (cfg : CMConfig) (xs : List ConversationItem) (s : CMState) : Prop :=
  s.index = ⟨xs.length, mkFiles cfg.max_file_lines xs.length⟩ ∧
  s.disk = mkDisk cfg.max_file_lines xs ∧
  s.recent_history = xs.drop (xs.length - cfg.recent_limit)

/-- A contiguous chain of shard entries covering `[p, r)` of the append
sequence `xs`, each entry's on-disk content being exactly its slice of `xs`. -/
inductive SegChain (xs : List ConversationItem) :
    Nat → Nat → List (FileInfo × List ConversationItem) → Prop
  | nil (p : Nat) : SegChain xs p p []
  | cons (p q r : Nat) (fi : FileInfo) (content : List ConversationItem)
      (rest : List (FileInfo × List ConversationItem)) :
      fi.start_index = p → fi.end_index = q → p ≤ q → q ≤ xs.length →
      content = pySlice xs p q → SegChain xs q r rest →
      SegChain xs p r ((fi, content) :: rest)

/-- Concrete items for witness instantiations. -/
def witnessItems : List ConversationItem :=
  [⟨"t0", "USER", "text", "c0"⟩, ⟨"t1", "AGENT", "text", "c1"⟩,
    ⟨"t2", "USER", "text", "c2"⟩, ⟨"t3", "AGENT", "text", "c3"⟩,
    ⟨"t4", "USER", "text", "c4"⟩]

/-- Concrete configuration for witness instantiations: two lines per shard,
recent window of three, large context limit. -/
def cfgA : CMConfig := ⟨2, 3, 100, 20⟩

/-- Concrete configuration for the summarization witness: context limit one,
keep one raw item after compaction. -/
def cfgB : CMConfig := ⟨2, 3, 1, 1⟩

/-! # Theorems -/

/-! ## C1, C4 — MemoryWriter update-command resolution -/

/-- C1 (code bug): an update command whose short-UUID prefix matches nothing
is *not* skipped without effect.  The `for/else` in
`MemoryWriter.process_interaction` (memory_write.py lines 88-95) logs the
warning but then falls through to `self.v_update(uuid_to_update, content)`:
on the first unresolvable update the local `uuid_to_update` was never
assigned and reading it raises `UnboundLocalError`; if an earlier update
command of the same plan assigned it, the stale id is silently reused and the
unresolvable command *does* mutate the store and the ring buffer.  Both
behaviours are exhibited below (store `trivOps` counts an update as `+100`:
the second plan ends with store `200` and a ring entry recorded by the
unmatched command). -/
theorem C1_unresolved_update_raises_or_mutates :
    process_interaction trivOps ⟨0, [], "u"⟩
        "v_update(uuid='zzzzzz', new_document='x')" [some "abc123"] =
      .error .unboundLocalError ∧
    process_interaction trivOps ⟨0, [], "u"⟩
        "v_update(uuid='aa', new_document='one')\nv_update(uuid='zz', new_document='two')"
        [some "aa-1"] =
      .ok ⟨200, [⟨"v_update", "one", some "aa-1"⟩, ⟨"v_update", "two", some "aa-1"⟩], "u"⟩ := by
  decide

/-- C4 (code bug): the short-UUID prefix of an update is resolved against
`used_uuid` alone — the union `uuid_can_be_used` with the ring-buffer ids
(memory_write.py lines 73-76) is computed but never read by the resolution
loop (lines 88-93).  Concretely: the ring buffer holds a document whose id
starts with the requested short id, `used_uuid` is empty, and processing
raises `UnboundLocalError` instead of updating that document. -/
theorem C4_ring_buffer_id_not_resolvable :
    pyStartsWith "abcdef-1234".data "abcdef".data = true ∧
    process_interaction trivOps ⟨0, [⟨"v_add", "old", some "abcdef-1234"⟩], "u"⟩
        "v_update(uuid='abcdef', new_document='new')" [] =
      .error .unboundLocalError := by
  decide

/-! ## C2 — MemoryManager construction -/

/-- C2 counterexample: with `retriever_type = "neo4j"` the retriever factory
raises `NotImplementedError` before the writer call is reached, so
construction does not raise a `TypeError` for *every* configuration. -/
theorem C2_counterexample_neo4j :
    memoryManagerInit "neo4j" "custom" (.ok ()) (.ok ()) (.ok ()) (.ok ()) =
      .error .notImplementedError ∧
    memoryManagerInit "neo4j" "custom" (.ok ()) (.ok ()) (.ok ()) (.ok ()) ≠
      .error .typeError := by
  decide

/-- C2 (amended): constructing a `MemoryManager` never succeeds — whenever the
graph-retriever factory, the vector-store factory and the searcher
construction all succeed, the `MemoryWriter(config, vector_store,
prompt_manager)` call binds three positional arguments against the four
required parameters of `MemoryWriter.__init__` and raises `TypeError`; and in
every case construction fails, so `get_knowledge` and
`post_process_interaction` are unreachable through this facade. -/
theorem C2_manager_never_constructed (rt st : String)
    (o1 o2 o3 o4 : Except PyError Unit) :
    (∀ u : Unit, memoryManagerInit rt st o1 o2 o3 o4 ≠ .ok u) ∧
    (create_retriever rt o1 = .ok () → create_vector_store st o2 o3 = .ok () →
      o4 = .ok () → memoryManagerInit rt st o1 o2 o3 o4 = .error .typeError) := by
  constructor
  · intro u h
    unfold memoryManagerInit at h
    cases h1 : create_retriever rt o1 with
    | error e => rw [h1] at h; exact Except.noConfusion h
    | ok _ =>
      rw [h1] at h
      cases h2 : create_vector_store st o2 o3 with
      | error e => rw [h2] at h; exact Except.noConfusion h
      | ok _ =>
        rw [h2] at h
        cases h3 : o4 with
        | error e => rw [h3] at h; exact Except.noConfusion h
        | ok _ => rw [h3] at h; exact Except.noConfusion h
  · intro h1 h2 h3
    unfold memoryManagerInit
    rw [h1, h2, h3]
    rfl

/-- Witness for C2: a configuration on the happy path (`memory` retriever,
`custom` store, all component constructions succeeding) yields `TypeError`. -/
theorem C2_witness :
    memoryManagerInit "memory" "custom" (.ok ()) (.ok ()) (.ok ()) (.ok ()) =
      .error .typeError :=
  (C2_manager_never_constructed "memory" "custom" (.ok ()) (.ok ()) (.ok ()) (.ok ())).2
    (by decide) (by decide) rfl

/-! ## C3 — post-process write concurrency -/

/-- C3 counterexample: `post_process_interaction` does not join the previous
write worker (memory_manager.py lines 60-70 contain no `join`).  Calling it
twice while the first worker is still running leaves *two* write workers
running concurrently, refuting "two write workers never run concurrently". -/
theorem C3_counterexample_two_writers :
    (post_process_interaction (post_process_interaction mmInit)).running = [0, 1] ∧
    0 ∈ (post_process_interaction (post_process_interaction mmInit)).running ∧
    1 ∈ (post_process_interaction (post_process_interaction mmInit)).running := by
  decide

/-- C3 (amended): `post_process_interaction` spawns a fresh write worker and
overwrites the handle without joining the previous worker, so write workers
can overlap; the join discipline lives in `get_knowledge`
(memory_manager.py lines 54-56), which — before searching — waits for the
most recently spawned write worker, so after its synchronization prefix that
worker is no longer running. -/
theorem C3_spawn_without_join_and_join_on_read (s : MMThreadState) (t : Nat) :
    ((post_process_interaction s).running = s.running ++ [s.next_id] ∧
      (post_process_interaction s).handle = some s.next_id) ∧
    (s.handle = some t → t ∉ (get_knowledge_sync s).running) := by
  refine ⟨⟨rfl, rfl⟩, ?_⟩
  intro h
  have hg : get_knowledge_sync s = if t ∈ s.running then joinThread s t else s := by
    unfold get_knowledge_sync
    rw [h]
  rw [hg]
  by_cases ht : t ∈ s.running
  · rw [if_pos ht]
    simp [joinThread, List.mem_filter]
  · rw [if_neg ht]
    exact ht

/-- Witness for C3: one spawned worker, then the `get_knowledge` join removes it. -/
theorem C3_witness :
    0 ∉ (get_knowledge_sync ⟨[0], some 0, 1⟩).running :=
  (C3_spawn_without_join_and_join_on_read ⟨[0], some 0, 1⟩ 0).2 rfl

/-! ## C5 — command-plan parsing -/

/-- The parse loop with accumulator equals the accumulator followed by the
specification-level parse. -/
theorem extractGo_append_spec (lines : List String) :
    ∀ acc, extractGo lines acc = acc ++ specParsedCommands lines := by
  induction lines with
  | nil =>
    intro acc
    simp [extractGo, specParsedCommands]
  | cons l rest ih =>
    intro acc
    cases h : parseLine l with
    | stop =>
      simp [extractGo, specParsedCommands, h, terminalLine]
    | skip =>
      simp [extractGo, specParsedCommands, h, terminalLine, lineCommand, ih,
        List.takeWhile_cons]
    | bad =>
      simp [extractGo, specParsedCommands, h, terminalLine]
    | cmd c =>
      simp [extractGo, specParsedCommands, h, terminalLine, lineCommand, ih,
        List.takeWhile_cons]

/-- C5 counterexample: a line with parentheses whose argument does not split
at `=` aborts the parse loop (its `ValueError` is caught by the surrounding
`try`, whose `finally` returns the commands collected so far), so the later
well-formed line `g_search_entity(entity_name='b')` is discarded — refuting
"one bad line never discards the rest of the plan". -/
theorem C5_counterexample_bad_line_discards_rest :
    extractCommands "v_search(query='a')\noops(no kv)\ng_search_entity(entity_name='b')" =
      [⟨"v_search", [("query", "a")]⟩] ∧
    parseLine "g_search_entity(entity_name='b')" =
      .cmd ⟨"g_search_entity", [("entity_name", "b")]⟩ ∧
    PlanCmd.mk "g_search_entity" [("entity_name", "b")] ∉
      extractCommands "v_search(query='a')\noops(no kv)\ng_search_entity(entity_name='b')" := by
  decide

/-- C5 (amended): parsing consumes lines in order; a line starting with `##`
terminates the plan; empty lines and lines lacking `(` or `)` are skipped
with a warning while later lines are still parsed; but a line with
parentheses whose arguments do not split into `key=value` pairs ends the
parse — the commands of earlier lines are kept and every later line is
discarded (the exception is caught, so the parse itself never raises).
Formally, the extracted commands are exactly the well-formed commands of the
longest prefix of lines containing neither terminator kind. -/
theorem C5_parse_until_terminator (response : String) :
    extractCommands response = specParsedCommands (pyLines response) :=
  extractGo_append_spec (pyLines response) []

/-! ## C9 — alias resolution -/

/-- Looking up the key just inserted by dict assignment yields its value. -/
theorem aliasLookup_insert_self (m : List (String × String)) (k v : String) :
    aliasLookup (aliasInsert m k v) k = some v := by
  induction m with
  | nil => simp [aliasInsert, dictInsert, aliasLookup]
  | cons p rest ih =>
    obtain ⟨k0, v0⟩ := p
    by_cases h : k0 = k
    · simp [aliasInsert, dictInsert, aliasLookup, h]
    · simp only [aliasInsert, dictInsert, aliasLookup, if_neg h] at *
      exact ih

/-- Dict assignment of a key not yet bound grows the map by one entry. -/
theorem aliasInsert_length_of_not_mem (m : List (String × String)) (k v : String)
    (h : aliasLookup m k = none) :
    (aliasInsert m k v).length = m.length + 1 := by
  induction m with
  | nil => simp [aliasInsert, dictInsert]
  | cons p rest ih =>
    obtain ⟨k0, v0⟩ := p
    by_cases hk : k0 = k
    · simp [aliasLookup, hk] at h
    · simp only [aliasLookup, if_neg hk] at h
      simp only [aliasInsert, dictInsert, if_neg hk, List.length_cons] at *
      rw [ih h]

/-- Resolution of an id that is a canonical entity key: returned unchanged,
no state change, no fuzzy search. -/
theorem get_aliased_name_canonical (g : GraphAliasState) (x : String)
    (hx : g.entities.contains x = true) :
    get_aliased_name g x = (some x, g, false) := by
  unfold get_aliased_name
  by_cases he : x = ""
  · rw [if_pos he]
  · rw [if_neg he, if_pos hx]

/-- Resolution that hits the alias map exactly: returns the mapped id,
no state change, no fuzzy search. -/
theorem get_aliased_name_alias_hit (g : GraphAliasState) (x v : String)
    (he : ¬x = "") (h1 : g.entities.contains x = false)
    (h2 : g.entities.contains (pyLower x) = false)
    (hm : aliasLookup g.alias_map x = some v) :
    get_aliased_name g x = (some v, g, false) := by
  unfold get_aliased_name
  rw [if_neg he, if_neg (by simpa using h1), if_neg (by simpa using h2), hm]

/-- C9: `get_aliased_name` is idempotent and memoizing — an id that is already
a canonical entity id resolves to itself with no state change and no fuzzy
search; and when a surface form is resolved through the fuzzy fallback, the
result is memoized into the alias map (which grows by exactly one entry for
that surface form), so resolving the same surface form again returns the
same id from the alias map without running the fuzzy search. -/
theorem C9_get_aliased_name_idempotent_memoizing (g : GraphAliasState) (x r : String)
    (g' : GraphAliasState) :
    (g.entities.contains x = true → get_aliased_name g x = (some x, g, false)) ∧
    (get_aliased_name g x = (some r, g', true) →
      get_aliased_name g' x = (some r, g', false) ∧
      g'.alias_map.length = g.alias_map.length + 1) := by
  constructor
  · intro hx
    exact get_aliased_name_canonical g x hx
  · intro h
    unfold get_aliased_name at h
    by_cases he : x = ""
    · rw [if_pos he] at h; simp at h
    · rw [if_neg he] at h
      by_cases h1 : g.entities.contains x = true
      · rw [if_pos h1] at h; simp at h
      · rw [if_neg h1] at h
        by_cases h2 : g.entities.contains (pyLower x) = true
        · rw [if_pos h2] at h; simp at h
        · rw [if_neg h2] at h
          cases hm1 : aliasLookup g.alias_map x with
          | some v => rw [hm1] at h; simp at h
          | none =>
            rw [hm1] at h
            cases hm2 : aliasLookup g.alias_map (pyLower x) with
            | some v => rw [hm2] at h; simp at h
            | none =>
              rw [hm2] at h
              cases hf : fuzzyScan x g.entities 0 none with
              | none => rw [hf] at h; simp at h
              | some best =>
                rw [hf] at h
                simp only [Prod.mk.injEq, Option.some.injEq] at h
                obtain ⟨hbr, hg', -⟩ := h
                subst hbr
                subst hg'
                rw [Bool.not_eq_true] at h1 h2
                refine ⟨?_, aliasInsert_length_of_not_mem g.alias_map x best hm1⟩
                exact get_aliased_name_alias_hit
                  ⟨g.entities, aliasInsert g.alias_map x best⟩ x best he h1 h2
                  (aliasLookup_insert_self g.alias_map x best)

/-- Witness for C9: the sole entity id `tianyi` resolves to itself; the
surface form `ti`, once fuzzily resolved and memoized, resolves from the
alias map with the map one entry larger. -/
theorem C9_witness :
    get_aliased_name ⟨["tianyi"], []⟩ "tianyi" = (some "tianyi", ⟨["tianyi"], []⟩, false) ∧
    (get_aliased_name ⟨["tianyi"], [("ti", "tianyi")]⟩ "ti" =
        (some "tianyi", ⟨["tianyi"], [("ti", "tianyi")]⟩, false) ∧
      (GraphAliasState.mk ["tianyi"] [("ti", "tianyi")]).alias_map.length =
        (GraphAliasState.mk ["tianyi"] []).alias_map.length + 1) :=
  ⟨(C9_get_aliased_name_idempotent_memoizing ⟨["tianyi"], []⟩ "tianyi" ""
      ⟨[], []⟩).1 (by decide),
    (C9_get_aliased_name_idempotent_memoizing ⟨["tianyi"], []⟩ "ti" "tianyi"
      ⟨["tianyi"], [("ti", "tianyi")]⟩).2 (by decide)⟩

/-! ## C10 — CustomVectorStore round trip -/

/-- C10 (code bug): the round trip fails because
`CustomVectorStore.update_document` and `delete_documents` are `pass` stubs —
for every store state they change nothing and return `None` (not the declared
`bool`).  Concretely, after adding the document `("A", "r", "B")` as `doc_1`,
updating `doc_1` to `("A", "r", "C")` leaves the stale document in place (a
search can never return the new content) and deleting `doc_1` leaves it
present (a search can still return its id). -/
theorem C10_update_delete_are_stubs :
    (∀ (α : Type) (s : CVState α) (ids : List String) (i : String) (d : TTDocument),
      cv_update_document s i d = (s, none) ∧ cv_delete_documents s ids = (s, none)) ∧
    ((cv_add_documents (fun s => s.length) (cvInit (α := Nat)) [⟨"A", "r", "B"⟩]).2 =
        ["doc_1"] ∧
      cvGetDocument
        (cv_update_document
          (cv_add_documents (fun s => s.length) (cvInit (α := Nat)) [⟨"A", "r", "B"⟩]).1
          "doc_1" ⟨"A", "r", "C"⟩).1 "doc_1" = some ⟨"A", "r", "B"⟩ ∧
      cvGetDocument
        (cv_delete_documents
          (cv_add_documents (fun s => s.length) (cvInit (α := Nat)) [⟨"A", "r", "B"⟩]).1
          ["doc_1"]).1 "doc_1" = some ⟨"A", "r", "B"⟩) := by
  constructor
  · intro α s ids i d
    exact ⟨rfl, rfl⟩
  · refine ⟨?_, ?_, ?_⟩ <;> decide

/-! ## C6, C7, C8 — ConversationManager: supporting lemmas -/

/-- Appending a snoc list is appending the prefix then the last item. -/
theorem appendItems_concat (cfg : CMConfig) (s : CMState)
    (xs : List ConversationItem) (x : ConversationItem) :
    appendItems cfg s (xs ++ [x]) = add_conversation cfg (appendItems cfg s xs) x := by
  induction xs generalizing s with
  | nil => rfl
  | cons y ys ih => simpa [appendItems] using ih (add_conversation cfg s y)

/-- The index produced by one append, independent of the context branch. -/
theorem add_conversation_index (cfg : CMConfig) (s : CMState) (x : ConversationItem) :
    (add_conversation cfg s x).index =
      ⟨(get_current_file_step cfg.max_file_lines s.index s.disk).1.total_count + 1,
        bumpLast (get_current_file_step cfg.max_file_lines s.index s.disk).1.files⟩ := by
  simp only [add_conversation]
  split <;> rfl

/-- The disk produced by one append, independent of the context branch. -/
theorem add_conversation_disk (cfg : CMConfig) (s : CMState) (x : ConversationItem) :
    (add_conversation cfg s x).disk =
      writeLast x (get_current_file_step cfg.max_file_lines s.index s.disk).2 := by
  simp only [add_conversation]
  split <;> rfl

/-- The recent window produced by one append, independent of the context branch. -/
theorem add_conversation_recent (cfg : CMConfig) (s : CMState) (x : ConversationItem) :
    (add_conversation cfg s x).recent_history =
      (if (s.recent_history ++ [x]).length > cfg.recent_limit then
        (s.recent_history ++ [x]).drop 1 else s.recent_history ++ [x]) := by
  simp only [add_conversation]
  split <;> rfl

/-- The context buffer produced by one append, independent of the branch. -/
theorem add_conversation_context (cfg : CMConfig) (s : CMState) (x : ConversationItem) :
    (add_conversation cfg s x).context = s.context ++ [x] := by
  simp only [add_conversation]
  split <;> rfl

/-- The summary is untouched by an append. -/
theorem add_conversation_summary (cfg : CMConfig) (s : CMState) (x : ConversationItem) :
    (add_conversation cfg s x).summary = s.summary := by
  simp only [add_conversation]
  split <;> rfl

/-- Bumping the last shard entry of a non-empty index appended with `f`. -/
theorem bumpLast_concat (l : List FileInfo) (f : FileInfo) :
    bumpLast (l ++ [f]) = l ++ [⟨f.filename, f.count + 1, f.start_index, f.end_index + 1⟩] := by
  induction l with
  | nil => rfl
  | cons a l ih =>
    cases hl : l ++ [f] with
    | nil => exact absurd hl (by simp)
    | cons g rest =>
      simp only [List.cons_append, bumpLast, hl]
      rw [← hl, ih]

/-- Writing to the last shard file of a non-empty disk appended with `c`. -/
theorem writeLast_concat (x : ConversationItem) (l : List (List ConversationItem))
    (c : List ConversationItem) :
    writeLast x (l ++ [c]) = l ++ [c ++ [x]] := by
  induction l with
  | nil => rfl
  | cons a l ih =>
    cases hl : l ++ [c] with
    | nil => exact absurd hl (by simp)
    | cons g rest =>
      simp only [List.cons_append, writeLast, hl]
      rw [← hl, ih]

/-- No appends, no shard entries. -/
theorem numFiles_zero (M : Nat) : numFiles M 0 = 0 := by
  unfold numFiles
  rcases M with _ | m
  · rfl
  · exact Nat.div_eq_of_lt (by omega)

/-- Shard count in terms of the index of the active shard. -/
theorem numFiles_eq_succ (M N : Nat) (hM : 1 ≤ M) (hN : 1 ≤ N) :
    numFiles M N = (N - 1) / M + 1 := by
  unfold numFiles
  have h : N + M - 1 = (N - 1) + M := by omega
  rw [h, Nat.add_div_right _ hM]

/-- Splitting the closed-form index at its active (last) shard. -/
theorem mkFiles_decomp (M N : Nat) (hM : 1 ≤ M) (hN : 1 ≤ N) :
    mkFiles M N =
      (List.range ((N - 1) / M)).map (mkFile M N) ++ [mkFile M N ((N - 1) / M)] := by
  rw [mkFiles, numFiles_eq_succ M N hM hN, List.range_succ, List.map_append,
    List.map_singleton]

/-- Splitting the closed-form disk at its active (last) shard. -/
theorem mkDisk_decomp (M : Nat) (xs : List ConversationItem) (hM : 1 ≤ M)
    (hN : 1 ≤ xs.length) :
    mkDisk M xs =
      (List.range ((xs.length - 1) / M)).map
        (fun i => pySlice xs (i * M) (min ((i + 1) * M) xs.length)) ++
      [pySlice xs (((xs.length - 1) / M) * M)
        (min ((((xs.length - 1) / M) + 1) * M) xs.length)] := by
  rw [mkDisk, numFiles_eq_succ M xs.length hM hN, List.range_succ, List.map_append,
    List.map_singleton]

/-- Shard entries with the same boundaries agree across append counts. -/
theorem mkFile_eq_of_le (M N N2 i : Nat) (h : (i + 1) * M ≤ N) (h2 : (i + 1) * M ≤ N2) :
    mkFile M N i = mkFile M N2 i := by
  unfold mkFile
  rw [Nat.min_eq_left h, Nat.min_eq_left h2]

/-- A slice wholly inside the left part of an append ignores the right part. -/
theorem pySlice_append_left {α : Type} (xs ys : List α) (a b : Nat)
    (h : b ≤ xs.length) : pySlice (xs ++ ys) a b = pySlice xs a b := by
  unfold pySlice
  rw [List.take_append_of_le_length h]

/-- One append advances the closed-form index and disk. -/
theorem file_step_closed (M : Nat) (hM : 1 ≤ M) (xs : List ConversationItem)
    (x : ConversationItem) :
    bumpLast (get_current_file_step M ⟨xs.length, mkFiles M xs.length⟩ (mkDisk M xs)).1.files =
      mkFiles M (xs.length + 1) ∧
    writeLast x (get_current_file_step M ⟨xs.length, mkFiles M xs.length⟩ (mkDisk M xs)).2 =
      mkDisk M (xs ++ [x]) := by
  rcases Nat.eq_zero_or_pos xs.length with hN | hN
  · -- first append: no shard yet
    have hxs : xs = [] := List.length_eq_zero.mp hN
    subst hxs
    have h0f : mkFiles M 0 = [] := by
      rw [mkFiles, numFiles_zero]
      rfl
    have h0d : mkDisk M [] = [] := by
      rw [mkDisk]
      simp [numFiles_zero]
    simp only [List.length_nil, h0f, h0d, List.nil_append]
    have hn1 : numFiles M 1 = 1 := by
      unfold numFiles
      have h1 : 1 + M - 1 = M := by omega
      rw [h1, Nat.div_self (by omega)]
    have hone : mkFile M 1 0 = ⟨"history_0.jsonl", 1, 0, 1⟩ := by
      unfold mkFile
      simp only [FileInfo.mk.injEq]
      refine ⟨rfl, ?_, ?_, ?_⟩ <;> omega
    have hr1 : List.range 1 = [0] := rfl
    constructor
    · rw [mkFiles, hn1, hr1, List.map_singleton, hone]
      rfl
    · rw [mkDisk]
      simp only [List.length_cons, List.length_nil, hn1, hr1,
        List.map_singleton]
      show writeLast x [[]] = [pySlice [x] (0 * M) (min ((0 + 1) * M) 1)]
      have h1 : min ((0 + 1) * M) 1 = 1 := by omega
      have h2 : 0 * M = 0 := by omega
      rw [h1, h2]
      rfl
  · -- later appends: the active shard exists
    set N := xs.length with hNdef
    set q := (N - 1) / M with hqdef
    have hq1 : q * M ≤ N - 1 := Nat.div_mul_le_self _ _
    have hdm := Nat.div_add_mod (N - 1) M
    have hmod : (N - 1) % M < M := Nat.mod_lt _ (by omega)
    have hcomm : M * ((N - 1) / M) = q * M := by rw [hqdef, Nat.mul_comm]
    have hub : N - 1 < q * M + M := by omega
    have hq1M : (q + 1) * M = q * M + M := by ring
    have hnum : numFiles M N = q + 1 := numFiles_eq_succ M N (by omega) (by omega)
    have hfd := mkFiles_decomp M N (by omega) (by omega)
    have hdd := mkDisk_decomp M xs (by omega) (by omega)
    rw [← hqdef] at hfd hdd
    have hlen : (mkFiles M N).length = q + 1 := by
      rw [mkFiles, List.length_map, List.length_range, hnum]
    have hlast_end : min ((q + 1) * M) N = N := by omega
    have hgl : (mkFiles M N).getLast? = some (mkFile M N q) := by
      rw [hfd]
      exact List.getLast?_concat _
    have hcount : (mkFile M N q).count = N - q * M := by
      unfold mkFile
      dsimp only
      rw [hlast_end]
    have hstep : get_current_file_step M ⟨N, mkFiles M N⟩ (mkDisk M xs) =
        (if (mkFile M N q).count ≥ M then
          (⟨N, mkFiles M N ++
            [⟨"history_" ++ toString (mkFiles M N).length ++ ".jsonl", 0, N, N⟩]⟩,
            mkDisk M xs ++ [[]])
        else (⟨N, mkFiles M N⟩, mkDisk M xs)) := by
      unfold get_current_file_step
      simp only [hgl]
    by_cases hrot : (mkFile M N q).count ≥ M
    · -- rotation: the active shard is full, so N = q*M + M
      have hrot2 := hrot
      rw [hcount] at hrot2
      have hNval : N = q * M + M := by omega
      have hnum2 : numFiles M (N + 1) = q + 2 := by
        unfold numFiles
        have h1 : N + 1 + M - 1 = (q + 2) * M := by
          have : (q + 2) * M = q * M + M + M := by ring
          omega
        rw [h1, Nat.mul_div_cancel _ (by omega)]
      have hmapeq : (List.range (q + 1)).map (mkFile M (N + 1)) = mkFiles M N := by
        rw [mkFiles, hnum]
        refine List.map_congr_left ?_
        intro i hi
        have hi2 : i < q + 1 := List.mem_range.mp hi
        have hle : (i + 1) * M ≤ (q + 1) * M := Nat.mul_le_mul_right M (by omega)
        exact mkFile_eq_of_le M (N + 1) N i (by omega) (by omega)
      have hlastf : mkFile M (N + 1) (q + 1) =
          ⟨"history_" ++ toString (q + 1) ++ ".jsonl", 1, N, N + 1⟩ := by
        unfold mkFile
        have h2 : (q + 1 + 1) * M = q * M + M + M := by ring
        have hmin : min ((q + 1 + 1) * M) (N + 1) = N + 1 := by omega
        have hs : (q + 1) * M = N := by omega
        have ho : N + 1 - N = 1 := by omega
        rw [hmin, hs, ho]
      have hRHS : mkFiles M (N + 1) =
          mkFiles M N ++ [⟨"history_" ++ toString (q + 1) ++ ".jsonl", 1, N, N + 1⟩] := by
        rw [mkFiles, hnum2, List.range_succ, List.map_append, List.map_singleton,
          hmapeq, hlastf]
      have hmd : (List.range (q + 1)).map
          (fun i => pySlice (xs ++ [x]) (i * M) (min ((i + 1) * M) (N + 1))) =
          mkDisk M xs := by
        rw [mkDisk, ← hNdef]
        rw [show numFiles M N = q + 1 from hnum]
        refine List.map_congr_left ?_
        intro i hi
        have hi2 : i < q + 1 := List.mem_range.mp hi
        have hle : (i + 1) * M ≤ (q + 1) * M := Nat.mul_le_mul_right M (by omega)
        have hle2 : (i + 1) * M ≤ N := by omega
        rw [Nat.min_eq_left (by omega), Nat.min_eq_left hle2]
        exact pySlice_append_left xs [x] (i * M) ((i + 1) * M) (by omega)
      have hlast2 : pySlice (xs ++ [x]) ((q + 1) * M) (min ((q + 1 + 1) * M) (N + 1)) = [x] := by
        have h2 : (q + 1 + 1) * M = q * M + M + M := by ring
        rw [Nat.min_eq_right (by omega)]
        unfold pySlice
        rw [List.take_of_length_le (by simp [hNdef])]
        have hq1N : (q + 1) * M = N := by omega
        rw [hq1N, List.drop_append_of_le_length (by omega)]
        rw [List.drop_length]
        rfl
      have hRHSd : mkDisk M (xs ++ [x]) = mkDisk M xs ++ [[x]] := by
        have hlen2 : (xs ++ [x]).length = N + 1 := by simp [hNdef]
        rw [mkDisk, hlen2, hnum2, List.range_succ, List.map_append, List.map_singleton,
          hmd, hlast2]
      constructor
      · rw [hstep, if_pos hrot]
        dsimp only
        rw [bumpLast_concat, hlen, hRHS]
      · rw [hstep, if_pos hrot]
        dsimp only
        rw [writeLast_concat, hRHSd, List.nil_append]
    · -- no rotation: bump the active shard in place
      have hrot2 := hrot
      rw [hcount] at hrot2
      have hq2 : N < q * M + M := by omega
      have hdivN : N / M = q := Nat.div_eq_of_lt_le (by omega) (by rw [Nat.succ_mul]; omega)
      have hnum2 : numFiles M (N + 1) = q + 1 := by
        rw [numFiles_eq_succ M (N + 1) (by omega) (by omega)]
        simp [hdivN]
      have hfd2 := mkFiles_decomp M (N + 1) (by omega) (by omega)
      have hdd2 := mkDisk_decomp M (xs ++ [x]) (by omega) (by simp)
      have hq3 : (N + 1 - 1) / M = q := by simpa using hdivN
      have hlen3 : (xs ++ [x]).length = N + 1 := by simp [hNdef]
      rw [hq3] at hfd2
      rw [hlen3, hq3] at hdd2
      have hmapeq : (List.range q).map (mkFile M (N + 1)) = (List.range q).map (mkFile M N) := by
        refine List.map_congr_left ?_
        intro i hi
        have hi2 : i < q := List.mem_range.mp hi
        have hle : (i + 1) * M ≤ q * M := Nat.mul_le_mul_right M (by omega)
        exact mkFile_eq_of_le M (N + 1) N i (by omega) (by omega)
      constructor
      · rw [hstep, if_neg hrot]
        dsimp only
        rw [hfd, bumpLast_concat, hfd2, hmapeq]
        have hlastf : mkFile M (N + 1) q =
            ⟨(mkFile M N q).filename, (mkFile M N q).count + 1,
              (mkFile M N q).start_index, (mkFile M N q).end_index + 1⟩ := by
          unfold mkFile
          dsimp only
          have hminN : min ((q + 1) * M) (N + 1) = N + 1 := by omega
          have ho : N + 1 - q * M = N - q * M + 1 := by omega
          rw [hminN, hlast_end, ho]
        rw [hlastf]
      · rw [hstep, if_neg hrot]
        dsimp only
        rw [hdd, writeLast_concat, hdd2]
        have hmd : (List.range q).map
            (fun i => pySlice (xs ++ [x]) (i * M) (min ((i + 1) * M) (N + 1))) =
            (List.range q).map
            (fun i => pySlice xs (i * M) (min ((i + 1) * M) N)) := by
          refine List.map_congr_left ?_
          intro i hi
          have hi2 : i < q := List.mem_range.mp hi
          have hle : (i + 1) * M ≤ q * M := Nat.mul_le_mul_right M (by omega)
          rw [Nat.min_eq_left (by omega), Nat.min_eq_left (by omega)]
          exact pySlice_append_left xs [x] (i * M) ((i + 1) * M) (by omega)
        rw [hmd]
        have hlast2 : pySlice (xs ++ [x]) (q * M) (min ((q + 1) * M) (N + 1)) =
            pySlice xs (q * M) (min ((q + 1) * M) N) ++ [x] := by
          rw [hlast_end, Nat.min_eq_right (by omega)]
          unfold pySlice
          rw [List.take_of_length_le (by simp [hNdef]),
            List.take_of_length_le (by omega)]
          exact List.drop_append_of_le_length (by omega)
        rw [hlast2]

/-- `_get_current_file_info` never changes the running total. -/
theorem get_current_file_step_total (M : Nat) (d : IndexData)
    (disk : List (List ConversationItem)) :
    (get_current_file_step M d disk).1.total_count = d.total_count := by
  unfold get_current_file_step
  cases hgl : d.files.getLast? with
  | none => rfl
  | some c =>
    dsimp only
    split <;> rfl

/-- One append advances the recent-window closed form. -/
theorem recent_step (xs : List ConversationItem) (x : ConversationItem) (R : Nat) :
    (if (xs.drop (xs.length - R) ++ [x]).length > R then
        (xs.drop (xs.length - R) ++ [x]).drop 1
      else xs.drop (xs.length - R) ++ [x]) =
      (xs ++ [x]).drop ((xs ++ [x]).length - R) := by
  have hL : (xs.drop (xs.length - R)).length = xs.length - (xs.length - R) :=
    List.length_drop _ _
  have hA : (xs ++ [x]).length = xs.length + 1 := by simp
  have hcond : (xs.drop (xs.length - R) ++ [x]).length =
      xs.length - (xs.length - R) + 1 := by simp
  by_cases hc : xs.length + 1 ≤ R
  · rw [if_neg (by rw [hcond]; omega)]
    have h1 : xs.length - R = 0 := by omega
    have h2 : (xs ++ [x]).length - R = 0 := by rw [hA]; omega
    rw [h1, h2, List.drop_zero, List.drop_zero]
  · rcases Nat.eq_zero_or_pos R with hR0 | hR1
    · subst hR0
      rw [if_pos (by rw [hcond]; omega)]
      have h1 : xs.drop (xs.length - 0) = [] := by
        rw [Nat.sub_zero]
        exact List.drop_length xs
      have h2 : (xs ++ [x]).drop ((xs ++ [x]).length - 0) = [] := by
        rw [Nat.sub_zero]
        exact List.drop_length _
      rw [h1, h2, List.nil_append]
      rfl
    · rw [if_pos (by rw [hcond]; omega)]
      have huL : 1 ≤ (xs.drop (xs.length - R)).length := by rw [hL]; omega
      rw [List.drop_append_of_le_length huL, List.drop_drop]
      have h3 : xs.length - R + 1 = xs.length + 1 - R := by omega
      rw [h3, hA,
        ← List.drop_append_of_le_length (show xs.length + 1 - R ≤ xs.length by omega)]

/-- One append transports the history invariant. -/
theorem cmHistInv_step (cfg : CMConfig) (hM : 1 ≤ cfg.max_file_lines)
    (xs : List ConversationItem) (x : ConversationItem) (s : CMState)
    (h : CMHistInv cfg xs s) :
    CMHistInv cfg (xs ++ [x]) (add_conversation cfg s x) := by
  obtain ⟨hidx, hdisk, hrec⟩ := h
  have hstep := file_step_closed cfg.max_file_lines hM xs x
  have hlen : (xs ++ [x]).length = xs.length + 1 := by simp
  refine ⟨?_, ?_, ?_⟩
  · rw [add_conversation_index, hidx, hdisk, hlen]
    have ht : (get_current_file_step cfg.max_file_lines
        ⟨xs.length, mkFiles cfg.max_file_lines xs.length⟩
        (mkDisk cfg.max_file_lines xs)).1.total_count = xs.length :=
      get_current_file_step_total _ _ _
    rw [IndexData.mk.injEq]
    exact ⟨by rw [ht], hstep.1⟩
  · rw [add_conversation_disk, hidx, hdisk]
    exact hstep.2
  · rw [add_conversation_recent, hrec]
    exact recent_step xs x cfg.recent_limit

/-- The history invariant holds after any append sequence from a fresh state. -/
theorem cmHistInv_holds (cfg : CMConfig) (hM : 1 ≤ cfg.max_file_lines)
    (xs : List ConversationItem) :
    CMHistInv cfg xs (appendItems cfg cmInit xs) := by
  induction xs using List.reverseRecOn with
  | nil =>
    refine ⟨?_, ?_, by simp [appendItems, cmInit]⟩
    · show (⟨0, []⟩ : IndexData) = ⟨(0 : Nat), mkFiles cfg.max_file_lines 0⟩
      rw [IndexData.mk.injEq]
      refine ⟨rfl, ?_⟩
      rw [mkFiles, numFiles_zero]
      rfl
    · show ([] : List (List ConversationItem)) = mkDisk cfg.max_file_lines []
      rw [mkDisk]
      simp [numFiles_zero]
  | append_singleton ys y ih =>
    rw [appendItems_concat]
    exact cmHistInv_step cfg hM ys y _ ih

/-- The pending flag produced by one append. -/
theorem add_conversation_pending (cfg : CMConfig) (s : CMState) (x : ConversationItem) :
    (add_conversation cfg s x).pending_update =
      (if (s.context ++ [x]).length > cfg.raw_conversation_context_limit then true
        else s.pending_update) := by
  simp only [add_conversation]
  split <;> rfl

/-- The ghost spawn counter produced by one append. -/
theorem add_conversation_spawn (cfg : CMConfig) (s : CMState) (x : ConversationItem) :
    (add_conversation cfg s x).spawn_count =
      (if (s.context ++ [x]).length > cfg.raw_conversation_context_limit then
        s.spawn_count + 1 else s.spawn_count) := by
  simp only [add_conversation]
  split <;> rfl

/-- While at most `raw_conversation_context_limit + 1` items have been
appended, the raw context still holds the whole sequence, the summary is
untouched, and exactly the `(limit+1)`-st append has started a summarization
cycle. -/
theorem ctx_char (cfg : CMConfig) (xs : List ConversationItem)
    (hlen : xs.length ≤ cfg.raw_conversation_context_limit + 1) :
    (appendItems cfg cmInit xs).context = xs ∧
    (appendItems cfg cmInit xs).summary = "" ∧
    ((appendItems cfg cmInit xs).pending_update = true ↔
      xs.length = cfg.raw_conversation_context_limit + 1) ∧
    (appendItems cfg cmInit xs).spawn_count =
      (if xs.length = cfg.raw_conversation_context_limit + 1 then 1 else 0) := by
  induction xs using List.reverseRecOn with
  | nil =>
    refine ⟨rfl, rfl, ?_, ?_⟩
    · simp only [List.length_nil, appendItems, cmInit]
      constructor
      · intro hf
        exact absurd hf (by simp)
      · intro he
        omega
    · simp only [List.length_nil, appendItems, cmInit]
      rw [if_neg (by omega)]
  | append_singleton ys y ih =>
    have hl2 : (ys ++ [y]).length = ys.length + 1 := by simp
    rw [hl2] at hlen ⊢
    obtain ⟨hc, hs, hp, hcnt⟩ := ih (by omega)
    rw [appendItems_concat, add_conversation_context, add_conversation_summary,
      add_conversation_pending, add_conversation_spawn, hc, hs, hcnt, hl2]
    refine ⟨rfl, rfl, ?_, ?_⟩
    · by_cases hLy : ys.length + 1 > cfg.raw_conversation_context_limit
      · rw [if_pos hLy]
        constructor
        · intro _
          omega
        · intro _
          rfl
      · rw [if_neg hLy, hp]
        omega
    · split_ifs <;> omega

/-- An empty Python slice. -/
theorem pySlice_eq_nil {α : Type} (xs : List α) (u v : Nat) (h : v ≤ u) :
    pySlice xs u v = [] := by
  unfold pySlice
  apply List.drop_eq_nil_of_le
  have := List.length_take v xs
  omega

/-- Reading `v - u` lines after skipping `u - p` lines of the shard covering
`[p, q)` yields exactly the slice `[u, v)`. -/
theorem read_slice (xs : List ConversationItem) (p q u v : Nat)
    (hpu : p ≤ u) (hvq : v ≤ q) :
    read_lines_from_file (pySlice xs p q) (u - p) (v - u) = pySlice xs u v := by
  unfold read_lines_from_file pySlice
  rw [List.drop_drop]
  have h1 : p + (u - p) = u := by omega
  rw [h1]
  by_cases huv : u ≤ v
  · rw [List.take_drop]
    have h2 : u + (v - u) = v := by omega
    rw [h2, List.take_take, Nat.min_eq_left hvq]
  · have h3 : v - u = 0 := by omega
    rw [h3, List.take_zero]
    exact (pySlice_eq_nil xs u v (by omega)).symm

/-- Adjacent clamped slices over contiguous intervals concatenate. -/
theorem slice_glue (xs : List ConversationItem) (a b p q r : Nat)
    (hpq : p ≤ q) (hqr : q ≤ r) (hqlen : q ≤ xs.length) :
    pySlice xs (max a p) (min b q) ++ pySlice xs (max a q) (min b r) =
      pySlice xs (max a p) (min b r) := by
  by_cases hbq : b ≤ q
  · have h2 : pySlice xs (max a q) (min b r) = [] := by
      apply pySlice_eq_nil
      omega
    rw [h2, List.append_nil]
    have h3 : min b q = min b r := by omega
    rw [h3]
  · by_cases haq : q ≤ a
    · have h1 : pySlice xs (max a p) (min b q) = [] := by
        apply pySlice_eq_nil
        omega
      rw [h1, List.nil_append]
      have h3 : max a q = max a p := by omega
      rw [h3]
    · have hmbq : min b q = q := by omega
      have hmaq : max a q = q := by omega
      rw [hmbq, hmaq]
      have hq2 : q ≤ min b r := by omega
      symm
      unfold pySlice
      have hsplit : xs.take (min b r) = xs.take q ++ (xs.take (min b r)).drop q := by
        conv_lhs => rw [← List.take_append_drop q (xs.take (min b r))]
        rw [List.take_take, Nat.min_eq_left hq2]
      conv_lhs => rw [hsplit]
      rw [List.drop_append_of_le_length (by rw [List.length_take]; omega)]

/-- A chain covers a nonnegative span. -/
theorem chain_bound (xs : List ConversationItem) (p r : Nat)
    (fs : List (FileInfo × List ConversationItem)) (h : SegChain xs p r fs) :
    p ≤ r := by
  induction h with
  | nil p => exact Nat.le_refl p
  | cons p q r fi content rest hs he hpq hqlen hcont hrest ih => omega

/-- The shard-scanning loop over a contiguous chain covering `[p, r)` returns
exactly the clamped slice of the append sequence. -/
theorem readFromFiles_chain (xs : List ConversationItem) (p r : Nat)
    (fs : List (FileInfo × List ConversationItem)) (h : SegChain xs p r fs)
    (a b : Nat) :
    readFromFiles fs a b = pySlice xs (max a p) (min b r) := by
  induction h with
  | nil p =>
    symm
    apply pySlice_eq_nil
    omega
  | cons p q r fi content rest hs he hpq hqlen hcont hrest ih =>
    simp only [readFromFiles]
    rw [hs, he, hcont, ih]
    have hhere : (if a < q ∧ p < b then
        read_lines_from_file (pySlice xs p q) (max a p - p) (min b q - max a p)
      else []) = pySlice xs (max a p) (min b q) := by
      by_cases hov : a < q ∧ p < b
      · rw [if_pos hov]
        exact read_slice xs p q (max a p) (min b q) (Nat.le_max_right a p)
          (Nat.min_le_right b q)
      · rw [if_neg hov]
        symm
        apply pySlice_eq_nil
        omega
    rw [hhere]
    exact slice_glue xs a b p q r hpq (chain_bound xs q r rest hrest) hqlen

/-- The shard entries from position `i0` on, paired with their disk contents,
form a contiguous chain ending at the total count. -/
theorem chain_suffix (M : Nat) (hM : 1 ≤ M) (xs : List ConversationItem) :
    ∀ (k i0 : Nat), i0 + k = numFiles M xs.length →
      SegChain xs (min (i0 * M) xs.length) xs.length
        ((List.range' i0 k).map
          (fun i => (mkFile M xs.length i,
            pySlice xs (i * M) (min ((i + 1) * M) xs.length)))) := by
  intro k
  induction k with
  | zero =>
    intro i0 hik
    have hminN : min (i0 * M) xs.length = xs.length := by
      rcases Nat.eq_zero_or_pos xs.length with hN | hN
      · omega
      · have hnum : numFiles M xs.length = (xs.length - 1) / M + 1 :=
          numFiles_eq_succ M xs.length hM hN
        have hq1 : ((xs.length - 1) / M) * M ≤ xs.length - 1 :=
          Nat.div_mul_le_self _ _
        have hdm := Nat.div_add_mod (xs.length - 1) M
        have hmod : (xs.length - 1) % M < M := Nat.mod_lt _ (by omega)
        have hcomm : M * ((xs.length - 1) / M) = ((xs.length - 1) / M) * M :=
          Nat.mul_comm _ _
        have hi0 : i0 = (xs.length - 1) / M + 1 := by omega
        have hmul : i0 * M = ((xs.length - 1) / M) * M + M := by
          rw [hi0]
          ring
        omega
    rw [hminN]
    exact SegChain.nil xs.length
  | succ k ihk =>
    intro i0 hik
    have hN1 : 1 ≤ xs.length := by
      rcases Nat.eq_zero_or_pos xs.length with hN | hN
      · rw [hN, numFiles_zero] at hik
        omega
      · exact hN
    have hnum : numFiles M xs.length = (xs.length - 1) / M + 1 :=
      numFiles_eq_succ M xs.length hM hN1
    have hq1 : ((xs.length - 1) / M) * M ≤ xs.length - 1 := Nat.div_mul_le_self _ _
    have hi0q : i0 ≤ (xs.length - 1) / M := by omega
    have hi0le : i0 * M ≤ ((xs.length - 1) / M) * M := Nat.mul_le_mul_right M hi0q
    have hmono : (i0 + 1) * M = i0 * M + M := by ring
    have hstart : min (i0 * M) xs.length = i0 * M := by omega
    rw [List.range'_succ, List.map_cons, hstart]
    refine SegChain.cons (i0 * M) (min ((i0 + 1) * M) xs.length) xs.length _ _ _
      rfl rfl (by omega) (Nat.min_le_right _ _) rfl ?_
    exact ihk (i0 + 1) (by omega)

/-- The zipped index/disk pair is the indexed list of shard/content pairs. -/
theorem zip_mkFiles_mkDisk (M : Nat) (xs : List ConversationItem) :
    (mkFiles M xs.length).zip (mkDisk M xs) =
      (List.range (numFiles M xs.length)).map
        (fun i => (mkFile M xs.length i,
          pySlice xs (i * M) (min ((i + 1) * M) xs.length))) := by
  rw [mkFiles, mkDisk, List.zip_map']

/-- C6: for every sequence of `N` appends from an empty log with per-shard
limit `M ≥ 1`, the resulting index satisfies: `totalCount = N`; there are
`⌈N / M⌉` shard entries (zero when `N = 0`, as `(0 + M - 1) / M = 0`); every
entry has `endIndex - startIndex = count`; consecutive entries are contiguous
and gapless; and the last entry ends at `totalCount`. -/
theorem C6_shard_index_invariants (cfg : CMConfig) (xs : List ConversationItem)
    (hM : 1 ≤ cfg.max_file_lines) :
    (appendItems cfg cmInit xs).index.total_count = xs.length ∧
    (appendItems cfg cmInit xs).index.files.length =
      (xs.length + cfg.max_file_lines - 1) / cfg.max_file_lines ∧
    (∀ f ∈ (appendItems cfg cmInit xs).index.files,
      f.end_index - f.start_index = f.count) ∧
    (∀ i, i + 1 < (appendItems cfg cmInit xs).index.files.length →
      ((appendItems cfg cmInit xs).index.files.getD i ⟨"", 0, 0, 0⟩).end_index =
        ((appendItems cfg cmInit xs).index.files.getD (i + 1) ⟨"", 0, 0, 0⟩).start_index) ∧
    (∀ f, (appendItems cfg cmInit xs).index.files.getLast? = some f →
      f.end_index = xs.length) := by
  obtain ⟨hidx, -, -⟩ := cmHistInv_holds cfg hM xs
  rw [hidx]
  dsimp only
  have hgetD : ∀ (i : Nat) (d : FileInfo), i < numFiles cfg.max_file_lines xs.length →
      (mkFiles cfg.max_file_lines xs.length).getD i d = mkFile cfg.max_file_lines xs.length i := by
    intro i d hi
    rw [mkFiles, List.getD_eq_getElem?_getD, List.getElem?_map, List.getElem?_range hi]
    rfl
  have hlenf : (mkFiles cfg.max_file_lines xs.length).length =
      numFiles cfg.max_file_lines xs.length := by
    rw [mkFiles, List.length_map, List.length_range]
  refine ⟨rfl, ?_, ?_, ?_, ?_⟩
  · rw [hlenf]
    rfl
  · intro f hf
    rw [mkFiles] at hf
    obtain ⟨i, hi, rfl⟩ := List.mem_map.mp hf
    rfl
  · intro i hi
    rw [hlenf] at hi
    rw [hgetD i _ (by omega), hgetD (i + 1) _ (by omega)]
    show min ((i + 1) * cfg.max_file_lines) xs.length = (i + 1) * cfg.max_file_lines
    rcases Nat.eq_zero_or_pos xs.length with hN | hN
    · rw [hN, numFiles_zero] at hi
      omega
    · have hq1 : ((xs.length - 1) / cfg.max_file_lines) * cfg.max_file_lines ≤
          xs.length - 1 := Nat.div_mul_le_self _ _
      have hnum : numFiles cfg.max_file_lines xs.length =
          (xs.length - 1) / cfg.max_file_lines + 1 :=
        numFiles_eq_succ _ _ hM hN
      rw [hnum] at hi
      have hle : (i + 1) * cfg.max_file_lines ≤
          ((xs.length - 1) / cfg.max_file_lines) * cfg.max_file_lines :=
        Nat.mul_le_mul_right _ (by omega)
      omega
  · intro f hf
    rcases Nat.eq_zero_or_pos xs.length with hN | hN
    · rw [hN, show mkFiles cfg.max_file_lines 0 = [] from by
        rw [mkFiles, numFiles_zero]; rfl] at hf
      simp at hf
    · rw [mkFiles_decomp _ _ hM hN, List.getLast?_concat] at hf
      have hq1 : ((xs.length - 1) / cfg.max_file_lines) * cfg.max_file_lines ≤
          xs.length - 1 := Nat.div_mul_le_self _ _
      have hdm := Nat.div_add_mod (xs.length - 1) cfg.max_file_lines
      have hmod : (xs.length - 1) % cfg.max_file_lines < cfg.max_file_lines :=
        Nat.mod_lt _ (by omega)
      have hcomm : cfg.max_file_lines * ((xs.length - 1) / cfg.max_file_lines) =
          ((xs.length - 1) / cfg.max_file_lines) * cfg.max_file_lines :=
        Nat.mul_comm _ _
      have hmul : ((xs.length - 1) / cfg.max_file_lines + 1) * cfg.max_file_lines =
          ((xs.length - 1) / cfg.max_file_lines) * cfg.max_file_lines +
            cfg.max_file_lines := by ring
      cases hf
      show min (((xs.length - 1) / cfg.max_file_lines + 1) * cfg.max_file_lines)
        xs.length = xs.length
      omega

/-- Witness for C6: five appends with shard limit two yield three shards. -/
theorem C6_witness :
    (appendItems cfgA cmInit witnessItems).index.total_count = witnessItems.length ∧
    (appendItems cfgA cmInit witnessItems).index.files.length =
      (witnessItems.length + cfgA.max_file_lines - 1) / cfgA.max_file_lines ∧
    (∀ f ∈ (appendItems cfgA cmInit witnessItems).index.files,
      f.end_index - f.start_index = f.count) ∧
    (∀ i, i + 1 < (appendItems cfgA cmInit witnessItems).index.files.length →
      ((appendItems cfgA cmInit witnessItems).index.files.getD i ⟨"", 0, 0, 0⟩).end_index =
        ((appendItems cfgA cmInit witnessItems).index.files.getD (i + 1) ⟨"", 0, 0, 0⟩).start_index) ∧
    (∀ f, (appendItems cfgA cmInit witnessItems).index.files.getLast? = some f →
      f.end_index = witnessItems.length) :=
  C6_shard_index_invariants cfgA witnessItems (by decide)

/-- C7: for every append sequence, shard limit `M ≥ 1` and range
`0 ≤ a ≤ b ≤ totalCount` over intact shard files, `get_history a b` returns
exactly the items `a, ..., b-1` that were appended, in append order —
whether the range is served from the in-memory recent window or by scanning
one or more shard files. -/
theorem C7_get_history_returns_slice (cfg : CMConfig) (xs : List ConversationItem)
    (a b : Nat) (hM : 1 ≤ cfg.max_file_lines) (hab : a ≤ b) (hb : b ≤ xs.length) :
    get_history (appendItems cfg cmInit xs) a b = pySlice xs a b := by
  obtain ⟨hidx, hdisk, hrec⟩ := cmHistInv_holds cfg hM xs
  simp only [get_history, hidx, hdisk, hrec]
  have hmin : min b xs.length = b := Nat.min_eq_left hb
  rw [hmin]
  by_cases hae : a ≥ b
  · rw [if_pos hae]
    exact (pySlice_eq_nil xs a b hae).symm
  · rw [if_neg hae]
    rw [List.length_drop]
    have hcs : xs.length - (xs.length - (xs.length - cfg.recent_limit)) =
        xs.length - cfg.recent_limit := by omega
    rw [hcs]
    by_cases hcache : a ≥ xs.length - cfg.recent_limit
    · rw [if_pos hcache]
      unfold pySlice
      rw [List.take_drop]
      have h1 : xs.length - cfg.recent_limit +
          (b - (xs.length - cfg.recent_limit)) = b := by omega
      rw [h1, List.drop_drop]
      have h2 : xs.length - cfg.recent_limit +
          (a - (xs.length - cfg.recent_limit)) = a := by omega
      rw [h2]
    · rw [if_neg hcache]
      have hchain := chain_suffix cfg.max_file_lines hM xs
        (numFiles cfg.max_file_lines xs.length) 0 (by omega)
      have h0 : min (0 * cfg.max_file_lines) xs.length = 0 := by omega
      rw [h0] at hchain
      rw [zip_mkFiles_mkDisk, List.range_eq_range',
        readFromFiles_chain xs 0 xs.length _ hchain a b]
      have h3 : max a 0 = a := by omega
      have h4 : min b xs.length = b := by omega
      rw [h3, h4]

/-- Witness for C7: a range spanning two shards and a range inside the recent
window both return exactly the appended items. -/
theorem C7_witness :
    get_history (appendItems cfgA cmInit witnessItems) 1 4 =
      pySlice witnessItems 1 4 ∧
    get_history (appendItems cfgA cmInit witnessItems) 3 5 =
      pySlice witnessItems 3 5 :=
  ⟨C7_get_history_returns_slice cfgA witnessItems 1 4 (by decide) (by decide) (by decide),
    C7_get_history_returns_slice cfgA witnessItems 3 5 (by decide) (by decide) (by decide)⟩

/-- C8: appending `rawContextLimit + 1` items to an initially empty context
starts exactly one background summarization cycle and leaves it pending; a
`get_context` call made while that cycle is in flight joins it first — the
returned state has no pending cycle, carries the new summary produced by the
LLM from the empty summary and all appended items, has the context truncated
to the last `notZipConversationCount` items, and the returned string renders
exactly that new summary and truncated context. -/
theorem C8_one_summarization_cycle (cfg : CMConfig)
    (llm : String → List ConversationItem → String) (xs : List ConversationItem)
    (hlen : xs.length = cfg.raw_conversation_context_limit + 1)
    (hK : 1 ≤ cfg.not_zip_conversation_count) :
    (appendItems cfg cmInit xs).spawn_count = 1 ∧
    (appendItems cfg cmInit xs).pending_update = true ∧
    (get_context llm cfg (appendItems cfg cmInit xs)).1.pending_update = false ∧
    (get_context llm cfg (appendItems cfg cmInit xs)).1.summary =
      String.mk (pyStrip (llm "" xs).data) ∧
    (get_context llm cfg (appendItems cfg cmInit xs)).1.context =
      xs.drop (xs.length - cfg.not_zip_conversation_count) ∧
    (get_context llm cfg (appendItems cfg cmInit xs)).2 =
      "更早对话总结：" ++ String.mk (pyStrip (llm "" xs).data) ++ "\n 最近对话：\n" ++
        renderContext (xs.drop (xs.length - cfg.not_zip_conversation_count)) := by
  obtain ⟨hc, hs, hp, hcnt⟩ := ctx_char cfg xs (by omega)
  have hpend : (appendItems cfg cmInit xs).pending_update = true := hp.mpr hlen
  have hupd_sum : (update_context llm cfg (appendItems cfg cmInit xs)).summary =
      String.mk (pyStrip (llm "" xs).data) := by
    unfold update_context
    rw [hs, hc]
  have hupd_ctx : (update_context llm cfg (appendItems cfg cmInit xs)).context =
      xs.drop (xs.length - cfg.not_zip_conversation_count) := by
    unfold update_context
    dsimp only
    rw [hc]
    unfold pyTakeLast
    rw [if_neg (by omega)]
  have hupd_pend : (update_context llm cfg (appendItems cfg cmInit xs)).pending_update =
      false := rfl
  have hgc : get_context llm cfg (appendItems cfg cmInit xs) =
      (update_context llm cfg (appendItems cfg cmInit xs),
        "更早对话总结：" ++ (update_context llm cfg (appendItems cfg cmInit xs)).summary ++
          "\n 最近对话：\n" ++
          renderContext ((update_context llm cfg (appendItems cfg cmInit xs)).context)) := by
    unfold get_context
    rw [hpend]
    simp
  refine ⟨?_, hpend, ?_, ?_, ?_, ?_⟩
  · rw [hcnt, if_pos hlen]
  · rw [hgc]
    exact hupd_pend
  · rw [hgc]
    exact hupd_sum
  · rw [hgc]
    exact hupd_ctx
  · rw [hgc]
    dsimp only
    rw [hupd_sum, hupd_ctx]

/-- Witness for C8: with context limit one, two appends start one cycle and
`get_context` reflects the joined result. -/
theorem C8_witness :
    (appendItems cfgB cmInit [⟨"t0", "USER", "text", "c0"⟩, ⟨"t1", "AGENT", "text", "c1"⟩]).spawn_count = 1 ∧
    (appendItems cfgB cmInit [⟨"t0", "USER", "text", "c0"⟩, ⟨"t1", "AGENT", "text", "c1"⟩]).pending_update = true ∧
    (get_context (fun _ _ => "S") cfgB (appendItems cfgB cmInit
      [⟨"t0", "USER", "text", "c0"⟩, ⟨"t1", "AGENT", "text", "c1"⟩])).1.pending_update = false ∧
    (get_context (fun _ _ => "S") cfgB (appendItems cfgB cmInit
      [⟨"t0", "USER", "text", "c0"⟩, ⟨"t1", "AGENT", "text", "c1"⟩])).1.summary =
      String.mk (pyStrip ((fun (_ : String) (_ : List ConversationItem) => "S") ""
        [⟨"t0", "USER", "text", "c0"⟩, ⟨"t1", "AGENT", "text", "c1"⟩]).data) ∧
    (get_context (fun _ _ => "S") cfgB (appendItems cfgB cmInit
      [⟨"t0", "USER", "text", "c0"⟩, ⟨"t1", "AGENT", "text", "c1"⟩])).1.context =
      ([⟨"t0", "USER", "text", "c0"⟩, ⟨"t1", "AGENT", "text", "c1"⟩] :
        List ConversationItem).drop
        (([⟨"t0", "USER", "text", "c0"⟩, ⟨"t1", "AGENT", "text", "c1"⟩] :
          List ConversationItem).length - cfgB.not_zip_conversation_count) ∧
    (get_context (fun _ _ => "S") cfgB (appendItems cfgB cmInit
      [⟨"t0", "USER", "text", "c0"⟩, ⟨"t1", "AGENT", "text", "c1"⟩])).2 =
      "更早对话总结：" ++ String.mk (pyStrip ((fun (_ : String)
        (_ : List ConversationItem) => "S") ""
        [⟨"t0", "USER", "text", "c0"⟩, ⟨"t1", "AGENT", "text", "c1"⟩]).data) ++
        "\n 最近对话：\n" ++
        renderContext (([⟨"t0", "USER", "text", "c0"⟩, ⟨"t1", "AGENT", "text", "c1"⟩] :
          List ConversationItem).drop
          (([⟨"t0", "USER", "text", "c0"⟩, ⟨"t1", "AGENT", "text", "c1"⟩] :
            List ConversationItem).length - cfgB.not_zip_conversation_count)) :=
  C8_one_summarization_cycle cfgB (fun _ _ => "S")
    [⟨"t0", "USER", "text", "c0"⟩, ⟨"t1", "AGENT", "text", "c1"⟩] (by decide) (by decide)

end LuoTianyi
